import Mathlib

/-!
A shallow embedding of the thumbnail composition engine of
`scripts/set_thumbnail.py`: the override cascade resolver, the asset
locator, the image transform pipeline, the text fitting algorithm and the
sprite placement arithmetic, together with theorems checking the claims of
the specification against it.

Modelling conventions: Python floats are modelled as rationals, Python
ints as integers; image dimensions (nonnegative in PIL) as naturals.
JSON override dictionaries are modelled as records of `Option` fields,
`some v` meaning "the key is present with value v".  The PIL image
library is external to the repository (the spec treats raster work as a
delegated non-goal); its operations are modelled by executable functions
that are faithful on every fact the theorems below observe (sizes, object
identity of untouched images, alpha arithmetic shape).
-/

namespace Thumb

/-- Python `str.lower()` (character-wise; the names involved are ASCII). -/
def pyLower (s : String) : String := String.mk (s.data.map Char.toLower)

/-- `str.replace("&", "and")` on a character list. -/
def replaceAmp : List Char → List Char
  | [] => []
  | c :: cs => if c = '&' then 'a' :: 'n' :: 'd' :: replaceAmp cs else c :: replaceAmp cs

/-- `normalize_token` of `set_thumbnail.py`: lowercase, map `&` to `and`,
strip every character outside `a`-`z`, `0`-`9`. -/
def normalize_token (text : String) : String :=
  String.mk ((replaceAmp ((pyLower text).data)).filter
    (fun c => ('a' ≤ c && c ≤ 'z') || ('0' ≤ c && c ≤ '9')))

/-- Python `sep.join(parts)`. -/
def pyJoin (sep : String) : List String → String
  | [] => ""
  | [x] => x
  | x :: y :: l => x ++ sep ++ pyJoin sep (y :: l)

/-- Lexicographic comparison of strings by code point, Python's `<=`. -/
def charListLe : List Char → List Char → Bool
  | [], _ => true
  | _ :: _, [] => false
  | a :: as, b :: bs => if a = b then charListLe as bs else decide (a < b)

def strLe (a b : String) : Bool := charListLe a.data b.data

def insertSorted (x : String) : List String → List String
  | [] => [x]
  | y :: ys => if strLe x y then x :: y :: ys else y :: insertSorted x ys

/-- Python `sorted` on strings (ascending code-point order). -/
def sortStrings (l : List String) : List String := l.foldr insertSorted []

/-- Collapse adjacent duplicates; after `sortStrings` this yields
`sorted(set(...))`. -/
def dedupAdj : List String → List String
  | [] => []
  | [x] => [x]
  | x :: y :: l => if x = y then dedupAdj (y :: l) else x :: dedupAdj (y :: l)

/-- `apply_center_offset`: positive values move a character away from the
screen center; the right side keeps the sign, any other side flips it. -/
def apply_center_offset (offset_x : ℤ) (side : String) : ℤ :=
  if pyLower side = "right" then offset_x else -offset_x

/-- A JSON override block as fed to `parse_override_block`: a field is
`some v` exactly when the key is present in the object.  `mirror` and
`use_other_side` are keys the interactive editor (`editor_server.py`,
`set_values`) writes into side blocks. -/
structure RawBlock where
  scale : Option ℚ
  offset_x : Option ℤ
  offset_y : Option ℤ
  mirror : Option Bool
  use_other_side : Option Bool
deriving DecidableEq

/-- An override dictionary at run time (the result of
`parse_override_block` / `merge_overrides` / `resolve_character_override`):
a field is `some v` exactly when the key is present in the Python dict. -/
structure OvrDict where
  scale : Option ℚ
  offset_x : Option ℤ
  offset_y : Option ℤ
  mirror : Option Bool
  use_other_side : Option Bool
deriving DecidableEq

/-- `parse_override_block`: a non-dict block yields `{}` under
`allow_missing` and the full default dict otherwise; for a dict block the
loop handles exactly the keys `scale`, `offset_x`, `offset_y` (filling the
defaults `1.0`, `0`, `0` unless `allow_missing` skips an absent key).
Any other key of the block — in particular `mirror` and
`use_other_side` — is never copied into the result. -/
def parse_override_block (block : Option RawBlock) (allow_missing : Bool) : OvrDict :=
  match block with
  | none =>
      if allow_missing then ⟨none, none, none, none, none⟩
      else ⟨some 1, some 0, some 0, none, none⟩
  | some b =>
      ⟨(if allow_missing && b.scale.isNone then none else some (b.scale.getD 1)),
       (if allow_missing && b.offset_x.isNone then none else some (b.offset_x.getD 0)),
       (if allow_missing && b.offset_y.isNone then none else some (b.offset_y.getD 0)),
       none, none⟩

/-- `merge_overrides`: copy `base`, then overwrite `scale`, `offset_x`,
`offset_y` with `extra`'s values when those keys are present in `extra`.
No other key of `extra` is merged. -/
def merge_overrides (base extra : OvrDict) : OvrDict :=
  { base with
    scale := if extra.scale.isSome then extra.scale else base.scale
    offset_x := if extra.offset_x.isSome then extra.offset_x else base.offset_x
    offset_y := if extra.offset_y.isSome then extra.offset_y else base.offset_y }

/-- A character's JSON block inside `characters`: its top-level keys form
the base partial override, `left` / `right` are optional side
sub-objects. -/
structure RawEntry where
  base : RawBlock
  left : Option RawBlock
  right : Option RawBlock
deriving DecidableEq

/-- The `character_overrides` JSON payload (a non-dict payload raises in
the source and a non-dict character block is skipped; neither shape is
represented). -/
structure RawOverrides where
  defaults : Option RawBlock
  characters : List (String × RawEntry)
deriving DecidableEq

/-- A parsed `characters` entry: `base` is parsed with defaults filled in,
the side blocks keep only explicitly present keys (absent sub-objects
parse to the empty dict). -/
structure Entry where
  base : OvrDict
  left : OvrDict
  right : OvrDict
deriving DecidableEq

/-- The parsed overrides structure `{"defaults": ..., "characters": ...}`.
The characters dict is modelled as an association list read through
`List.lookup`; insertion conses in front, which gives exactly the Python
dict's `get` semantics (the dict is never iterated, only looked up). -/
structure Overrides where
  defaults : OvrDict
  characters : List (String × Entry)
deriving DecidableEq

/-- Parse one `characters` entry, as `load_character_overrides_data` does:
base with defaults filled, side blocks keeping only present keys. -/
def parseEntry (block : RawEntry) : Entry :=
  ⟨parse_override_block (some block.base) false,
   parse_override_block block.left true,
   parse_override_block block.right true⟩

/-- `load_character_overrides_data`: `None` gives the bare defaults;
otherwise defaults are parsed (absent `defaults` key gives the full
default dict) and each character block is parsed and stored under its
normalized name. -/
def load_character_overrides_data (payload : Option RawOverrides) : Overrides :=
  match payload with
  | none => ⟨⟨some 1, some 0, some 0, none, none⟩, []⟩
  | some p =>
      ⟨parse_override_block p.defaults false,
       p.characters.foldl
         (fun acc nb => (normalize_token nb.1, parseEntry nb.2) :: acc) []⟩

/-- `resolve_character_override`: start from a copy of the defaults; with
no entry for the normalized character, sign-adjust `offset_x` by side and
return.  Otherwise merge the base block, remember the merged `offset_x`,
merge the selected side block, and finally set `offset_x` to the side
block's literal value when that key is present, else to the remembered
base value sign-adjusted by side. -/
def resolve_character_override (overrides : Overrides) (character side : String) : OvrDict :=
  let merged := overrides.defaults
  match overrides.characters.lookup (normalize_token character) with
  | none =>
      { merged with offset_x := some (apply_center_offset (merged.offset_x.getD 0) side) }
  | some entry =>
      let merged := merge_overrides merged entry.base
      let offset0 := merged.offset_x.getD 0
      let side_block := if pyLower side = "left" then entry.left else entry.right
      let merged := merge_overrides merged side_block
      let offset1 := if side_block.offset_x.isSome then merged.offset_x.getD 0
                     else apply_center_offset offset0 side
      { merged with offset_x := some offset1 }

/-- All three cascade keys absent from a raw JSON block. -/
def RawBlock.unset (b : RawBlock) : Prop :=
  b.scale = none ∧ b.offset_x = none ∧ b.offset_y = none

/-- A payload that sets none of `scale`, `offset_x`, `offset_y` anywhere. -/
def payloadUnset : Option RawOverrides → Prop
  | none => True
  | some p =>
      (∀ d, p.defaults = some d → d.unset) ∧
      ∀ nb ∈ p.characters, nb.2.base.unset ∧
        (∀ b, nb.2.left = some b → b.unset) ∧
        (∀ b, nb.2.right = some b → b.unset)

/-! ## Asset locator (`resolve_character_dir`, `resolve_character_image`) -/

/-- `MAX_UPSCALE = 1.6`. -/
def MAX_UPSCALE : ℚ := 8 / 5

/-- `RIGHT_SIDE_HEIGHT_RATIO = 0.9`. -/
def RIGHT_SIDE_HEIGHT_RATIO : ℚ := 9 / 10

/-- One character's asset directory: the stems of its `*.png` files in
filesystem iteration order, and each file's raster dimensions after the
transparent crop (`scaled_height_for_path` opens and crops the file before
measuring; `dims` records the result of that external raster work). -/
structure VsDir where
  files : List String
  dims : String → ℕ × ℕ

/-- The character root directory: its subdirectories in iteration order. -/
structure CharRoot where
  dirs : List (String × VsDir)

/-- `find_image_file`: exact stem first, else the first `*.png` whose
normalized stem matches. -/
def find_image_file (dir : VsDir) (stem : String) : Option String :=
  if dir.files.contains stem then some stem
  else dir.files.find? (fun s => normalize_token s = normalize_token stem)

/-- `stem.rsplit(" ", 1)[0]`: everything before the last space. -/
def splitSp : List Char → List Char → List String
  | [], acc => [String.mk acc.reverse]
  | c :: cs, acc =>
      if c = ' ' then String.mk acc.reverse :: splitSp cs []
      else splitSp cs (c :: acc)

def rsplitBeforeLast (s : String) : String :=
  let parts := splitSp s.data []
  if parts.length ≤ 1 then s else pyJoin " " parts.dropLast

/-- `str.endswith` via character lists. -/
def strEndsWith (s suffix : String) : Bool := suffix.data.isSuffixOf s.data

/-- `available_vs_colors`: the sorted set of color names occurring as
`"<color> Left"` or `"<color> Right"` stems. -/
def available_vs_colors (dir : VsDir) : List String :=
  dedupAdj (sortStrings
    ((dir.files.filter
        (fun s => strEndsWith s " Left" || strEndsWith s " Right")).map rsplitBeforeLast))

/-- `resolve_character_dir`: exact directory name, else the first
normalized match, else a `RuntimeError` enumerating the sorted available
directory names. -/
def resolve_character_dir (root : CharRoot) (character : String) :
    Except String (String × VsDir) :=
  match root.dirs.lookup character with
  | some d => .ok (character, d)
  | none =>
      match root.dirs.find? (fun p => normalize_token p.1 = normalize_token character) with
      | some p => .ok p
      | none =>
          .error (s!"Unknown character '{character}'. Available: "
            ++ pyJoin ", " (sortStrings (root.dirs.map (fun p => p.1))))

/-- `scaled_height_for_path`: the cropped height of the file times the
scale-to-fit factor `min(maxW/w, maxH/h)` capped at `MAX_UPSCALE`. -/
def scaled_height_for_path (dir : VsDir) (path : String) (max_width max_height : ℤ) : ℚ :=
  let wh := dir.dims path
  (wh.2 : ℚ) * min (min ((max_width : ℚ) / wh.1) ((max_height : ℚ) / wh.2)) MAX_UPSCALE

/-- Python truthiness of an optional int (`None` and `0` are falsy). -/
def truthyInt : Option ℤ → Bool
  | none => false
  | some v => v != 0

/-- The left-side per-candidate loop of the `vs_screen` branch. -/
def vsLeftLoop (dir : VsDir) : List String → Option (String × Bool × String)
  | [] => none
  | c :: rest =>
      match find_image_file dir (c ++ " Left") with
      | some path => some (path, false, c)
      | none => vsLeftLoop dir rest

/-- The hardcoded Roy-on-the-right loop: force the mirrored left asset. -/
def royLoop (dir : VsDir) : List String → Option (String × Bool × String)
  | [] => none
  | c :: rest =>
      match find_image_file dir (c ++ " Left") with
      | some path => some (path, true, c)
      | none => royLoop dir rest

/-- The right-side per-candidate loop of the `vs_screen` branch: when both
side files exist and both bounds are truthy, substitute the mirrored left
asset exactly when the right fitted height is below
`RIGHT_SIDE_HEIGHT_RATIO` times the left fitted height; otherwise prefer
the right asset, else fall back to the mirrored left one. -/
def vsRightLoop (dir : VsDir) (max_width max_height : Option ℤ) :
    List String → Option (String × Bool × String)
  | [] => none
  | c :: rest =>
      match find_image_file dir (c ++ " Right"), find_image_file dir (c ++ " Left") with
      | some rp, some lp =>
          if truthyInt max_width && truthyInt max_height then
            if scaled_height_for_path dir rp (max_width.getD 0) (max_height.getD 0)
                < scaled_height_for_path dir lp (max_width.getD 0) (max_height.getD 0)
                  * RIGHT_SIDE_HEIGHT_RATIO
            then some (lp, true, c)
            else some (rp, false, c)
          else some (rp, false, c)
      | some rp, none => some (rp, false, c)
      | none, some lp => some (lp, true, c)
      | none, none => vsRightLoop dir max_width max_height rest

/-- The per-candidate loop of the single-image asset sets. -/
def plainLoop (dir : VsDir) : List String → Option (String × Bool × String)
  | [] => none
  | c :: rest =>
      match find_image_file dir c with
      | some path => some (path, false, c)
      | none => plainLoop dir rest

/-- The color candidates: the requested color, then `"Default"` when the
request is not already the default. -/
def colorCandidates (color : String) : List String :=
  if normalize_token color = "default" then [color] else [color, "Default"]

/-- `resolve_character_image` (warnings on stderr are side effects outside
the model; the returned triple is `(path, mirror flag, color used)`). -/
def resolve_character_image (root : CharRoot) (character color side character_set : String)
    (max_width max_height : Option ℤ) : Except String (String × Bool × String) :=
  match resolve_character_dir root character with
  | .error e => .error e
  | .ok (dirName, dir) =>
      let candidates := colorCandidates color
      if character_set = "vs_screen" then
        match (if side = "Right" ∧ normalize_token character = "roy"
               then royLoop dir candidates else none) with
        | some r => .ok r
        | none =>
            match (if side = "Left" then vsLeftLoop dir candidates
                   else vsRightLoop dir max_width max_height candidates) with
            | some r => .ok r
            | none =>
                .error (s!"Missing image for {character} ({color} {side}) in {dirName}. "
                  ++ "Available colors: " ++ pyJoin ", " (available_vs_colors dir))
      else
        match plainLoop dir candidates with
        | some r => .ok r
        | none =>
            .error (s!"Missing image for {character} ({color}) in {dirName}. "
              ++ "Available colors: " ++ pyJoin ", " (sortStrings dir.files))

/-! ## Image transform pipeline (PIL collaborator model) -/

/-- An RGBA pixel (channel values 0-255). -/
structure Pix where
  r : ℕ
  g : ℕ
  b : ℕ
  a : ℕ
deriving DecidableEq

/-- A raster image: dimensions, PIL mode string and row-major pixel data. -/
structure Img where
  width : ℕ
  height : ℕ
  mode : String
  data : List Pix
deriving DecidableEq

def Img.getPx (im : Img) (x y : ℕ) : Pix := im.data.getD (y * im.width + x) ⟨0, 0, 0, 0⟩

/-- Build an RGBA image from a pixel function. -/
def mkImg (w h : ℕ) (f : ℕ → ℕ → Pix) : Img :=
  ⟨w, h, "RGBA", (List.range (w * h)).map (fun i => f (i % w) (i / w))⟩

/-- `Image.new("RGBA", (w, h), c)`. -/
def imageNew (w h : ℕ) (c : Pix) : Img := ⟨w, h, "RGBA", List.replicate (w * h) c⟩

/-- `convert("RGBA")` (the raster re-encoding itself is external; only the
mode is observable to the claims, all of which start from RGBA input). -/
def Img.convertRGBA (im : Img) : Img := { im with mode := "RGBA" }

/-- `paste` blending with the source's own alpha as mask. -/
def pasteBlend (s d : Pix) : Pix :=
  ⟨(s.r * s.a + d.r * (255 - s.a)) / 255,
   (s.g * s.a + d.g * (255 - s.a)) / 255,
   (s.b * s.a + d.b * (255 - s.a)) / 255,
   (s.a * s.a + d.a * (255 - s.a)) / 255⟩

/-- `dst.paste(src, (px, py), src)`. -/
def Img.paste (dst src : Img) (px py : ℕ) : Img :=
  { mkImg dst.width dst.height (fun x y =>
      if px ≤ x ∧ x < px + src.width ∧ py ≤ y ∧ y < py + src.height then
        pasteBlend (src.getPx (x - px) (y - py)) (dst.getPx x y)
      else dst.getPx x y) with mode := dst.mode }

/-- A single-channel (`L` mode) raster, as produced by `split()[-1]`. -/
structure Chan where
  width : ℕ
  height : ℕ
  data : List ℕ
deriving DecidableEq

/-- `image.split()[-1]`: the alpha channel. -/
def Img.alphaChannel (im : Img) : Chan := ⟨im.width, im.height, im.data.map Pix.a⟩

/-- Channel value at signed coordinates, 0 outside the raster. -/
def Chan.get0 (c : Chan) (x y : ℤ) : ℕ :=
  if 0 ≤ x ∧ x < (c.width : ℤ) ∧ 0 ≤ y ∧ y < (c.height : ℤ) then
    c.data.getD (y.toNat * c.width + x.toNat) 0
  else 0

/-- `ImageFilter.MaxFilter(k)`: windowed maximum (dilation). -/
def Chan.maxFilter (c : Chan) (k : ℕ) : Chan :=
  ⟨c.width, c.height,
   (List.range (c.width * c.height)).map (fun i =>
     let x : ℤ := (i % c.width : ℕ)
     let y : ℤ := (i / c.width : ℕ)
     let r : ℤ := (k / 2 : ℕ)
     (List.range k).foldl (fun acc dy =>
       (List.range k).foldl (fun acc2 dx =>
         max acc2 (c.get0 (x + dx - r) (y + dy - r))) acc) 0)⟩

/-- `ImageChops.subtract` on channels (clamped at 0, as PIL clamps). -/
def chanSubtract (a b : Chan) : Chan :=
  ⟨a.width, a.height, List.zipWith (fun x y => x - y) a.data b.data⟩

/-- `putalpha`: replace the alpha plane. -/
def Img.putalpha (im : Img) (ch : Chan) : Img :=
  { im with data := List.zipWith (fun p v => ⟨p.r, p.g, p.b, v⟩) im.data ch.data }

/-- Porter-Duff `over` with integer arithmetic (the exact rounding of the
external library is not observed by any claim). -/
def overPix (bg fg : Pix) : Pix :=
  let outA := fg.a + bg.a * (255 - fg.a) / 255
  ⟨(fg.r * fg.a + bg.r * bg.a * (255 - fg.a) / 255) / max 1 outA,
   (fg.g * fg.a + bg.g * bg.a * (255 - fg.a) / 255) / max 1 outA,
   (fg.b * fg.a + bg.b * bg.a * (255 - fg.a) / 255) / max 1 outA,
   outA⟩

/-- `Image.alpha_composite(im1, im2)`: `im2` over `im1`, sized like `im1`. -/
def alpha_composite (im1 im2 : Img) : Img :=
  mkImg im1.width im1.height (fun x y => overPix (im1.getPx x y) (im2.getPx x y))

/-- `apply_character_outline`: identity for a non-positive size, else pad
by the size on every side, dilate the alpha by a `max(3, 2*size+1)` window,
subtract the original alpha to get the ring mask, fill it with the outline
color and composite the padded sprite over it. -/
def apply_character_outline (image : Img) (outline_px : ℤ) (color : Pix) : Img :=
  if outline_px ≤ 0 then image
  else
    let image := if image.mode ≠ "RGBA" then image.convertRGBA else image
    let pad := outline_px.toNat
    let padded := (imageNew (image.width + pad * 2) (image.height + pad * 2)
                    ⟨0, 0, 0, 0⟩).paste image pad pad
    let alpha := padded.alphaChannel
    let filter_size := max 3 (pad * 2 + 1)
    let expanded := alpha.maxFilter filter_size
    let outline_mask := chanSubtract expanded alpha
    let outline := (imageNew padded.width padded.height color).putalpha outline_mask
    alpha_composite outline padded

/-- Python `round` to an integer: round half to even. -/
def pyRound (q : ℚ) : ℤ :=
  let f := ⌊q⌋
  let r := q - f
  if r < 1 / 2 then f
  else if 1 / 2 < r then f + 1
  else if f % 2 = 0 then f else f + 1

/-- The scale `scale_to_fit` applies: `min(maxW/w, maxH/h)` capped at
`MAX_UPSCALE`. -/
def appliedScale (w h : ℕ) (max_width max_height : ℤ) : ℚ :=
  min (min ((max_width : ℚ) / w) ((max_height : ℚ) / h)) MAX_UPSCALE

/-- Nearest-sample resize (the external LANCZOS resampling is not observed
beyond the output dimensions). -/
def Img.resize (im : Img) (w h : ℕ) : Img :=
  mkImg w h (fun x y => im.getPx (x * im.width / w) (y * im.height / h))

/-- `scale_to_fit`: no-op for non-positive bounds or scale exactly 1, else
resize by the applied scale with half-even rounding, floored at 1 pixel. -/
def scale_to_fit (image : Img) (max_width max_height : ℤ) : Img :=
  if max_width ≤ 0 ∨ max_height ≤ 0 then image
  else
    let scale := appliedScale image.width image.height max_width max_height
    if scale = 1 then image
    else image.resize (max 1 (pyRound (image.width * scale)).toNat)
                      (max 1 (pyRound (image.height * scale)).toNat)

/-! ## Sprite placement (`main`, lines 1135-1138) -/

/-- The four canvas origins computed by `main`. -/
structure Placement where
  p1_x : ℤ
  p1_y : ℤ
  p2_x : ℤ
  p2_y : ℤ
deriving DecidableEq

/-- The placement arithmetic of `main`: the left sprite is inset by
`border + margin_x`, the right one mirrored from the right edge, both
bottom-anchored at `height - border - margin_y`, shifted by the resolved
offsets and compensated by the outline padding. -/
def sprite_placement (width height border margin_x margin_y : ℤ)
    (p1_base_height p2_base_width p2_base_height : ℤ)
    (p1_offset_x p1_offset_y p2_offset_x p2_offset_y outline_offset : ℤ) : Placement :=
  ⟨border + margin_x + p1_offset_x - outline_offset,
   height - border - margin_y - p1_base_height + p1_offset_y - outline_offset,
   width - border - margin_x - p2_base_width + p2_offset_x - outline_offset,
   height - border - margin_y - p2_base_height + p2_offset_y - outline_offset⟩

/-! ## Text layout engine (`wrap_text`, `truncate_text`, `fit_text`)

The external font library is modelled by a per-character advance width
`cw : Char → ℕ` (depending on the font size in `fit_text`): the rendered
width of a string is the sum of its characters' widths, which is the
additive behaviour `text_width` exposes to the greedy wrap. -/

/-- Rendered width of a string under the character-width model. -/
def strW (cw : Char → ℕ) (s : String) : ℕ := (s.data.map cw).sum

/-- Python `text.split()`: split on whitespace runs, dropping empties. -/
def splitWs : List Char → List Char → List String
  | [], acc => [String.mk acc.reverse]
  | c :: cs, acc =>
      if c.isWhitespace then String.mk acc.reverse :: splitWs cs []
      else splitWs cs (c :: acc)

def pySplit (text : String) : List String :=
  (splitWs text.data []).filter (fun s => s ≠ "")

/-- The greedy fill loop of `wrap_text`: extend the current line while the
joined candidate still fits, else close the line and start a new one,
failing when a lone word exceeds the width or the closed-line count
reaches `max_lines`; finally fail when the closed lines exceed
`max_lines`. -/
def wrapLoop (cw : Char → ℕ) (max_width max_lines : ℤ)
    (current : String) (lines : List String) :
    List String → Option (List String)
  | [] =>
      let lines := lines ++ [current]
      if (lines.length : ℤ) > max_lines then none else some lines
  | word :: rest =>
      let candidate := current ++ " " ++ word
      if (strW cw candidate : ℤ) ≤ max_width then
        wrapLoop cw max_width max_lines candidate lines rest
      else
        let lines := lines ++ [current]
        if (strW cw word : ℤ) > max_width then none
        else if (lines.length : ℤ) ≥ max_lines then none
        else wrapLoop cw max_width max_lines word lines rest

/-- `wrap_text`: empty word list yields the single empty line; a first
word wider than `max_width` fails; otherwise run the greedy loop. -/
def wrap_text (cw : Char → ℕ) (text : String) (max_width max_lines : ℤ) :
    Option (List String) :=
  match pySplit text with
  | [] => some [""]
  | w :: ws =>
      if (strW cw w : ℤ) > max_width then none
      else wrapLoop cw max_width max_lines w [] ws

/-- Python `str.rstrip()`. -/
def pyRstrip (s : String) : String :=
  String.mk ((s.data.reverse.dropWhile Char.isWhitespace).reverse)

/-- Python `s[:-1]`. -/
def pyDropLast (s : String) : String := String.mk s.data.dropLast

/-- The trimming loop of `truncate_text`, with explicit fuel (each step
shortens the string, so `s.length` steps always suffice). -/
def truncLoop (cw : Char → ℕ) (max_width : ℤ) : ℕ → String → String
  | 0, t => t
  | fuel + 1, t =>
      if t = "" then t
      else if (strW cw (t ++ "...") : ℤ) ≤ max_width then t
      else truncLoop cw max_width fuel (pyRstrip (pyDropLast t))

/-- `truncate_text`: return the text unchanged when it fits, else trim
characters (and trailing whitespace) from the end until the trimmed text
plus `"..."` fits; append the ellipsis, or give the text back when the
trim consumed everything. -/
def truncate_text (cw : Char → ℕ) (text : String) (max_width : ℤ) : String :=
  if (strW cw text : ℤ) ≤ max_width then text
  else if truncLoop cw max_width text.length text ≠ "" then
    truncLoop cw max_width text.length text ++ "..."
  else text

/-- The candidate sizes of `range(max_size, min_size - 1, -2)`. -/
def fitSizes (max_size min_size : ℤ) : List ℤ :=
  if max_size < min_size then []
  else (List.range ((max_size - min_size).toNat / 2 + 1)).map
    (fun i : ℕ => max_size - 2 * (i : ℤ))

/-- `fit_text`: try each candidate size largest-first and return the first
whose wrap succeeds; otherwise fall back to `min_size`, wrapped if
possible, else the truncate-with-ellipsis single line.  The first
component of the result is the chosen font size. -/
def fit_text (cw : ℤ → Char → ℕ) (text : String)
    (max_size min_size max_width max_lines : ℤ) : ℤ × List String :=
  match (fitSizes max_size min_size).find?
      (fun s => (wrap_text (cw s) text max_width max_lines).isSome) with
  | some s => (s, (wrap_text (cw s) text max_width max_lines).getD [])
  | none =>
      match wrap_text (cw min_size) text max_width max_lines with
      | some lines => (min_size, lines)
      | none => (min_size, [truncate_text (cw min_size) text max_width])

/-- Feasibility of wrapping a word list at width `max_width` into exactly
`k` lines, each line a nonempty group of consecutive words whose joined
rendering fits.  The greedy loop succeeds exactly when some `k` within
`max_lines` is feasible. -/
inductive Feas (cw : Char → ℕ) (max_width : ℤ) : ℤ → List String → Prop
  | nil : Feas cw max_width 0 []
  | cons (g rest : List String) (k : ℤ) :
      g ≠ [] → (strW cw (pyJoin " " g) : ℤ) ≤ max_width →
      Feas cw max_width k rest → Feas cw max_width (k + 1) (g ++ rest)

/-! ## Theorems -/

/-- C5: with zero resolved offsets and outline disabled, both sprites'
bottom edges sit at exactly `height - border - margin_y`; the left origin
is `border + margin_x`, the right origin `width - border - margin_x -
spriteWidth`, and for equal sprite widths the two sprites are symmetric
about the canvas's horizontal center (their doubled midpoints sum to
`2 * width`). -/
theorem placement_bottom_edges_and_symmetry
    (width height border margin_x margin_y p1w p1h p2w p2h : ℤ) (hw : p1w = p2w) :
    (sprite_placement width height border margin_x margin_y
        p1h p2w p2h 0 0 0 0 0).p1_y + p1h = height - border - margin_y ∧
    (sprite_placement width height border margin_x margin_y
        p1h p2w p2h 0 0 0 0 0).p2_y + p2h = height - border - margin_y ∧
    (sprite_placement width height border margin_x margin_y
        p1h p2w p2h 0 0 0 0 0).p1_x = border + margin_x ∧
    (sprite_placement width height border margin_x margin_y
        p1h p2w p2h 0 0 0 0 0).p2_x = width - border - margin_x - p2w ∧
    (2 * (sprite_placement width height border margin_x margin_y
        p1h p2w p2h 0 0 0 0 0).p1_x + p1w)
      + (2 * (sprite_placement width height border margin_x margin_y
        p1h p2w p2h 0 0 0 0 0).p2_x + p2w) = 2 * width := by
  subst hw
  refine ⟨by simp only [sprite_placement]; ring, by simp only [sprite_placement]; ring,
    by simp only [sprite_placement]; ring, by simp only [sprite_placement]; ring,
    by simp only [sprite_placement]; ring⟩

/-- Witness for C5 on a concrete 1920x1080 design-space layout. -/
theorem placement_bottom_edges_and_symmetry_witness :
    (sprite_placement 1920 1080 50 80 60 700 500 650 0 0 0 0 0).p1_y + 700
        = 1080 - 50 - 60 ∧
    (sprite_placement 1920 1080 50 80 60 700 500 650 0 0 0 0 0).p2_y + 650
        = 1080 - 50 - 60 ∧
    (sprite_placement 1920 1080 50 80 60 700 500 650 0 0 0 0 0).p1_x = 50 + 80 ∧
    (sprite_placement 1920 1080 50 80 60 700 500 650 0 0 0 0 0).p2_x
        = 1920 - 50 - 80 - 500 ∧
    (2 * (sprite_placement 1920 1080 50 80 60 700 500 650 0 0 0 0 0).p1_x + 500)
      + (2 * (sprite_placement 1920 1080 50 80 60 700 500 650 0 0 0 0 0).p2_x + 500)
        = 2 * 1920 :=
  placement_bottom_edges_and_symmetry 1920 1080 50 80 60 500 700 500 650 rfl

/-- C7: `scale_to_fit` applies `appliedScale`, the fit ratio capped at
1.6; the cap is never exceeded, a source larger than the box in both
dimensions gets exactly the uncapped fit ratio, and a source smaller than
the box by more than the factor 1.6 in both dimensions gets exactly
1.6. -/
theorem scale_to_fit_scale_law (img : Img) (max_width max_height : ℤ)
    (hw : 0 < img.width) (hh : 0 < img.height)
    (hmw : 0 < max_width) (hmh : 0 < max_height) :
    (scale_to_fit img max_width max_height =
      if appliedScale img.width img.height max_width max_height = 1 then img
      else img.resize
        (max 1 (pyRound ((img.width : ℚ)
            * appliedScale img.width img.height max_width max_height)).toNat)
        (max 1 (pyRound ((img.height : ℚ)
            * appliedScale img.width img.height max_width max_height)).toNat)) ∧
    appliedScale img.width img.height max_width max_height ≤ 8 / 5 ∧
    (max_width < (img.width : ℤ) → max_height < (img.height : ℤ) →
      appliedScale img.width img.height max_width max_height
        = min ((max_width : ℚ) / img.width) ((max_height : ℚ) / img.height)) ∧
    ((8 : ℚ) / 5 * img.width < max_width → (8 : ℚ) / 5 * img.height < max_height →
      appliedScale img.width img.height max_width max_height = 8 / 5) := by
  have hguard : ¬ (max_width ≤ 0 ∨ max_height ≤ 0) := by omega
  refine ⟨?_, ?_, ?_, ?_⟩
  · rw [scale_to_fit, if_neg hguard]
  · have := min_le_right (min ((max_width : ℚ) / img.width) ((max_height : ℚ) / img.height))
      MAX_UPSCALE
    rw [MAX_UPSCALE] at this
    exact this
  · intro h1 h2
    have hwq : (0 : ℚ) < img.width := by exact_mod_cast hw
    have ha : (max_width : ℚ) / img.width < 1 := by
      rw [div_lt_one hwq]; exact_mod_cast h1
    have : min ((max_width : ℚ) / img.width) ((max_height : ℚ) / img.height)
        ≤ MAX_UPSCALE := by
      refine le_trans (le_trans (min_le_left _ _) ha.le) ?_
      rw [MAX_UPSCALE]; norm_num
    simpa [appliedScale] using min_eq_left this
  · intro h1 h2
    have hwq : (0 : ℚ) < img.width := by exact_mod_cast hw
    have hhq : (0 : ℚ) < img.height := by exact_mod_cast hh
    have ha : MAX_UPSCALE ≤ (max_width : ℚ) / img.width := by
      rw [MAX_UPSCALE, le_div_iff₀ hwq]; exact h1.le
    have hb : MAX_UPSCALE ≤ (max_height : ℚ) / img.height := by
      rw [MAX_UPSCALE, le_div_iff₀ hhq]; exact h2.le
    have hmin := min_eq_right (le_min ha hb)
    rw [appliedScale, hmin, MAX_UPSCALE]

/-- Witness for C7 at a 100x50 source and a 40x40 box. -/
theorem scale_to_fit_scale_law_witness :
    appliedScale 100 50 40 40 ≤ 8 / 5 ∧ appliedScale 100 50 40 40
      = min ((40 : ℚ) / 100) ((40 : ℚ) / 50) :=
  ⟨(scale_to_fit_scale_law ⟨100, 50, "RGBA", []⟩ 40 40 (by norm_num) (by norm_num)
      (by norm_num) (by norm_num)).2.1,
   (scale_to_fit_scale_law ⟨100, 50, "RGBA", []⟩ 40 40 (by norm_num) (by norm_num)
      (by norm_num) (by norm_num)).2.2.1 (by norm_num) (by norm_num)⟩

/-- C3: outline synthesis with size 0 returns the input image itself,
and with a positive size `s` it grows each dimension by exactly `2*s`. -/
theorem outline_zero_identity_and_growth (img : Img) (c : Pix) (hm : img.mode = "RGBA") :
    apply_character_outline img 0 c = img ∧
    ∀ s : ℤ, 0 < s →
      (apply_character_outline img s c).width = img.width + 2 * s.toNat ∧
      (apply_character_outline img s c).height = img.height + 2 * s.toNat := by
  constructor
  · simp [apply_character_outline]
  · intro s hs
    have hns : ¬ s ≤ 0 := by omega
    constructor <;>
    · simp only [apply_character_outline, if_neg hns, hm, ne_eq, not_true_eq_false,
        if_false, ite_false]
      simp [alpha_composite, mkImg, Img.putalpha, imageNew, Img.paste,
        Img.alphaChannel, Chan.maxFilter, chanSubtract]
      ring

/-- Witness for C3 at a concrete 1x1 RGBA image and outline size 2. -/
theorem outline_zero_identity_and_growth_witness :
    apply_character_outline ⟨1, 1, "RGBA", [⟨9, 8, 7, 200⟩]⟩ 0 ⟨0, 0, 0, 255⟩
        = ⟨1, 1, "RGBA", [⟨9, 8, 7, 200⟩]⟩ ∧
    (apply_character_outline ⟨1, 1, "RGBA", [⟨9, 8, 7, 200⟩]⟩ 2 ⟨0, 0, 0, 255⟩).width
        = 1 + 2 * 2 ∧
    (apply_character_outline ⟨1, 1, "RGBA", [⟨9, 8, 7, 200⟩]⟩ 2 ⟨0, 0, 0, 255⟩).height
        = 1 + 2 * 2 :=
  ⟨(outline_zero_identity_and_growth ⟨1, 1, "RGBA", [⟨9, 8, 7, 200⟩]⟩ ⟨0, 0, 0, 255⟩ rfl).1,
   (outline_zero_identity_and_growth ⟨1, 1, "RGBA", [⟨9, 8, 7, 200⟩]⟩ ⟨0, 0, 0, 255⟩ rfl).2
      2 (by norm_num)⟩

theorem parse_false_none : parse_override_block none false
    = ⟨some 1, some 0, some 0, none, none⟩ := rfl

theorem parse_false_unset {b : RawBlock} (h : b.unset) :
    parse_override_block (some b) false = ⟨some 1, some 0, some 0, none, none⟩ := by
  obtain ⟨h1, h2, h3⟩ := h
  simp [parse_override_block, h1, h2, h3]

theorem parse_true_none : parse_override_block none true
    = ⟨none, none, none, none, none⟩ := rfl

theorem parse_true_unset {b : RawBlock} (h : b.unset) :
    parse_override_block (some b) true = ⟨none, none, none, none, none⟩ := by
  obtain ⟨h1, h2, h3⟩ := h
  simp [parse_override_block, h1, h2, h3]

theorem parse_false_isSome (b : Option RawBlock) :
    (parse_override_block b false).scale.isSome
      ∧ (parse_override_block b false).offset_x.isSome
      ∧ (parse_override_block b false).offset_y.isSome := by
  cases b <;> simp [parse_override_block]

theorem merge_keeps_some {a : OvrDict} (b : OvrDict) :
    (a.scale.isSome → (merge_overrides a b).scale.isSome)
      ∧ (a.offset_x.isSome → (merge_overrides a b).offset_x.isSome)
      ∧ (a.offset_y.isSome → (merge_overrides a b).offset_y.isSome) := by
  refine ⟨?_, ?_, ?_⟩ <;>
  · intro h
    simp only [merge_overrides]
    split <;> simp_all

theorem lookup_cons_elim {k a : String} {b v : Entry} {t : List (String × Entry)}
    (h : ((a, b) :: t).lookup k = some v) : (k = a ∧ v = b) ∨ t.lookup k = some v := by
  by_cases hk : k = a
  · subst hk
    simp [List.lookup] at h
    exact .inl ⟨rfl, h.symm⟩
  · right
    have hb : (k == a) = false := beq_eq_false_iff_ne.mpr hk
    simpa [List.lookup, hb] using h

theorem lookup_build (l : List (String × RawEntry)) :
    ∀ (acc : List (String × Entry)) (k : String) (v : Entry),
    (l.foldl (fun acc nb => (normalize_token nb.1, parseEntry nb.2) :: acc) acc).lookup k
        = some v →
    acc.lookup k = some v ∨ ∃ nb ∈ l, v = parseEntry nb.2 := by
  induction l with
  | nil => intro acc k v h; exact .inl h
  | cons nb l ih =>
      intro acc k v h
      rcases ih _ k v h with h' | ⟨nb', hm, hv⟩
      · rcases lookup_cons_elim h' with ⟨_, hv⟩ | h''
        · exact .inr ⟨nb, List.mem_cons_self nb l, hv⟩
        · exact .inl h''
      · exact .inr ⟨nb', List.mem_cons_of_mem _ hm, hv⟩

/-- C1: `resolve_character_override` computes `offset_x` as the cascade
prescribes: the sign flip keeps the sign on the right and negates on the
left; with no entry the defaults' `offset_x` is sign-adjusted by side;
with an entry whose selected side block sets `offset_x` that literal value
is returned unflipped; and with an entry whose side block leaves
`offset_x` unset the base-merged value is sign-adjusted by side. -/
theorem resolve_offset_x_cascade (ov : Overrides) (character side : String) :
    (∀ x : ℤ, apply_center_offset x "Right" = x ∧ apply_center_offset x "Left" = -x) ∧
    (ov.characters.lookup (normalize_token character) = none →
      (resolve_character_override ov character side).offset_x
        = some (apply_center_offset (ov.defaults.offset_x.getD 0) side)) ∧
    (∀ entry, ov.characters.lookup (normalize_token character) = some entry →
      (∀ v : ℤ,
        (if pyLower side = "left" then entry.left else entry.right).offset_x = some v →
          (resolve_character_override ov character side).offset_x = some v) ∧
      ((if pyLower side = "left" then entry.left else entry.right).offset_x = none →
          (resolve_character_override ov character side).offset_x
            = some (apply_center_offset
                ((merge_overrides ov.defaults entry.base).offset_x.getD 0) side))) := by
  refine ⟨?_, ?_, ?_⟩
  · intro x
    have hr : pyLower "Right" = "right" := by decide
    have hl : pyLower "Left" = "left" := by decide
    constructor
    · simp [apply_center_offset, hr]
    · simp [apply_center_offset, hl]
  · intro h
    simp [resolve_character_override, h]
  · intro entry h
    constructor
    · intro v hv
      simp [resolve_character_override, h, merge_overrides, hv]
    · intro hv
      simp [resolve_character_override, h, merge_overrides, hv]

/-- Witness for C1: a right-side block's literal `offset_x = 7` wins
unflipped over defaults `offset_x = 5`. -/
theorem resolve_offset_x_cascade_witness :
    (resolve_character_override
      (load_character_overrides_data (some
        ⟨some ⟨none, some 5, none, none, none⟩,
         [("Fox", ⟨⟨none, none, none, none, none⟩, none,
           some ⟨none, some 7, none, none, none⟩⟩)]⟩))
      "Fox" "Right").offset_x = some 7 :=
  ((resolve_offset_x_cascade
      (load_character_overrides_data (some
        ⟨some ⟨none, some 5, none, none, none⟩,
         [("Fox", ⟨⟨none, none, none, none, none⟩, none,
           some ⟨none, some 7, none, none, none⟩⟩)]⟩))
      "Fox" "Right").2.2
    ⟨⟨some 1, some 0, some 0, none, none⟩, ⟨none, none, none, none, none⟩,
      ⟨none, some 7, none, none, none⟩⟩ (by decide)).1 7 (by decide)

/-- C10: for every payload (including `None`) the resolved override dict
carries all three of `scale`, `offset_x`, `offset_y`; and when the
configuration sets none of them anywhere, their values are the defaults
`1.0`, `0`, `0` (and no other key is present). -/
theorem resolve_contract_complete (payload : Option RawOverrides) (character side : String) :
    ((resolve_character_override (load_character_overrides_data payload)
        character side).scale.isSome
      ∧ (resolve_character_override (load_character_overrides_data payload)
        character side).offset_x.isSome
      ∧ (resolve_character_override (load_character_overrides_data payload)
        character side).offset_y.isSome) ∧
    (payloadUnset payload →
      resolve_character_override (load_character_overrides_data payload) character side
        = ⟨some 1, some 0, some 0, none, none⟩) := by
  have hzero : ∀ side' : String, apply_center_offset 0 side' = 0 := by
    intro side'
    simp [apply_center_offset]
  have hD : (load_character_overrides_data payload).defaults.scale.isSome
      ∧ (load_character_overrides_data payload).defaults.offset_x.isSome
      ∧ (load_character_overrides_data payload).defaults.offset_y.isSome := by
    cases payload with
    | none => simp [load_character_overrides_data]
    | some p => exact parse_false_isSome p.defaults
  constructor
  · cases h : (load_character_overrides_data payload).characters.lookup
        (normalize_token character) with
    | none =>
        refine ⟨?_, ?_, ?_⟩ <;> simp [resolve_character_override, h, hD.1, hD.2.2]
    | some entry =>
        have h1 := merge_keeps_some (a := (load_character_overrides_data payload).defaults)
          entry.base
        have h2 := merge_keeps_some
          (a := merge_overrides (load_character_overrides_data payload).defaults entry.base)
          (if pyLower side = "left" then entry.left else entry.right)
        refine ⟨?_, ?_, ?_⟩ <;>
          simp [resolve_character_override, h, h2.1 (h1.1 hD.1), h2.2.2 (h1.2.2 hD.2.2)]
  · intro hu
    have hDv : (load_character_overrides_data payload).defaults
        = ⟨some 1, some 0, some 0, none, none⟩ := by
      cases payload with
      | none => rfl
      | some p =>
          cases hd : p.defaults with
          | none => simp [load_character_overrides_data, hd, parse_false_none]
          | some d =>
              have := hu.1 d hd
              simp [load_character_overrides_data, hd, parse_false_unset this]
    cases h : (load_character_overrides_data payload).characters.lookup
        (normalize_token character) with
    | none =>
        simp [resolve_character_override, h, hDv, hzero]
    | some entry =>
        have hentry : entry = ⟨⟨some 1, some 0, some 0, none, none⟩,
            ⟨none, none, none, none, none⟩, ⟨none, none, none, none, none⟩⟩ := by
          cases payload with
          | none => simp [load_character_overrides_data, List.lookup] at h
          | some p =>
              have hb := lookup_build p.characters [] (normalize_token character) entry
                (by simpa [load_character_overrides_data] using h)
              rcases hb with habs | ⟨nb, hm, hv⟩
              · simp [List.lookup] at habs
              · obtain ⟨hbase, hleft, hright⟩ := hu.2 nb hm
                have hl : parse_override_block nb.2.left true
                    = ⟨none, none, none, none, none⟩ := by
                  cases hx : nb.2.left with
                  | none => exact parse_true_none
                  | some b => exact parse_true_unset (hleft b hx)
                have hr : parse_override_block nb.2.right true
                    = ⟨none, none, none, none, none⟩ := by
                  cases hx : nb.2.right with
                  | none => exact parse_true_none
                  | some b => exact parse_true_unset (hright b hx)
                rw [hv]
                simp [parseEntry, parse_false_unset hbase, hl, hr]
        subst hentry
        by_cases hside : pyLower side = "left" <;>
          simp [resolve_character_override, h, hDv, hzero, merge_overrides, hside]

/-- Witness for C10 at a concrete payload whose blocks set nothing. -/
theorem resolve_contract_complete_witness :
    ((resolve_character_override (load_character_overrides_data (some
        ⟨none, [("Marth", ⟨⟨none, none, none, none, none⟩, none, none⟩)]⟩))
        "Marth" "Left").scale.isSome
      ∧ (resolve_character_override (load_character_overrides_data (some
        ⟨none, [("Marth", ⟨⟨none, none, none, none, none⟩, none, none⟩)]⟩))
        "Marth" "Left").offset_x.isSome
      ∧ (resolve_character_override (load_character_overrides_data (some
        ⟨none, [("Marth", ⟨⟨none, none, none, none, none⟩, none, none⟩)]⟩))
        "Marth" "Left").offset_y.isSome) ∧
    resolve_character_override (load_character_overrides_data (some
        ⟨none, [("Marth", ⟨⟨none, none, none, none, none⟩, none, none⟩)]⟩))
        "Marth" "Left" = ⟨some 1, some 0, some 0, none, none⟩ :=
  ⟨(resolve_contract_complete (some
      ⟨none, [("Marth", ⟨⟨none, none, none, none, none⟩, none, none⟩)]⟩) "Marth" "Left").1,
   (resolve_contract_complete (some
      ⟨none, [("Marth", ⟨⟨none, none, none, none, none⟩, none, none⟩)]⟩) "Marth" "Left").2
     (by
        simp only [payloadUnset]
        refine ⟨fun d hd => Option.noConfusion hd, fun nb hm => ?_⟩
        have : nb = ("Marth", ⟨⟨none, none, none, none, none⟩, none, none⟩) := by
          simpa using hm
        subst this
        refine ⟨?_, fun b hb => Option.noConfusion hb, fun b hb => Option.noConfusion hb⟩
        simp [RawBlock.unset])⟩

/-- C6 (code-bug evidence): a side block carrying `mirror` and
`use_other_side` — exactly what the editor's `set_values` writes and what
its callers read back from `resolve_character_override` — resolves to a
dict in which neither key is present: `parse_override_block` only copies
`scale`, `offset_x`, `offset_y`, and `merge_overrides` merges no other
key, so the flags are silently dropped. -/
theorem side_flags_dropped_at_failing_input :
    resolve_character_override
      (load_character_overrides_data (some
        ⟨none, [("Fox", ⟨⟨none, none, none, none, none⟩, none,
          some ⟨none, none, none, some true, some true⟩⟩)]⟩))
      "Fox" "Right"
      = ⟨some 1, some 0, some 0, none, none⟩ := by decide

theorem vsRightLoop_skip (dir : VsDir) (mw mh : Option ℤ) :
    ∀ (pre l : List String),
      (∀ c ∈ pre, find_image_file dir (c ++ " Right") = none
        ∧ find_image_file dir (c ++ " Left") = none) →
      vsRightLoop dir mw mh (pre ++ l) = vsRightLoop dir mw mh l := by
  intro pre
  induction pre with
  | nil => intro l _; rfl
  | cons c pre ih =>
      intro l hall
      have h1 := hall c (List.mem_cons_self c pre)
      simp only [List.cons_append, vsRightLoop, h1.1, h1.2]
      exact ih l (fun c' hc' => hall c' (List.mem_cons_of_mem _ hc'))

/-- C2: for a right-side `vs_screen` lookup with nonzero bounds where the
first matching color candidate — taken in order requested color, then
`"Default"`, the earlier candidates matching no file at all — has both
side files (and the character is not the hardcoded exception), the right
asset is kept exactly when its fitted height is at least
`RIGHT_SIDE_HEIGHT_RATIO` (90%) of the left one's — equality at the
threshold keeps the right asset — and the mirrored left asset is
substituted exactly when it is strictly below. -/
theorem right_side_mirror_threshold (root : CharRoot) (character color : String)
    (mw mh : ℤ) (dn : String) (dir : VsDir) (pre rest : List String) (c rp lp : String)
    (hdir : resolve_character_dir root character = .ok (dn, dir))
    (hroy : normalize_token character ≠ "roy")
    (hmw : 0 < mw) (hmh : 0 < mh)
    (hcands : colorCandidates color = pre ++ c :: rest)
    (hpre : ∀ c' ∈ pre, find_image_file dir (c' ++ " Right") = none
      ∧ find_image_file dir (c' ++ " Left") = none)
    (hr : find_image_file dir (c ++ " Right") = some rp)
    (hl : find_image_file dir (c ++ " Left") = some lp) :
    (scaled_height_for_path dir lp mw mh * RIGHT_SIDE_HEIGHT_RATIO
        ≤ scaled_height_for_path dir rp mw mh →
      resolve_character_image root character color "Right" "vs_screen" (some mw) (some mh)
        = .ok (rp, false, c)) ∧
    (scaled_height_for_path dir rp mw mh
        < scaled_height_for_path dir lp mw mh * RIGHT_SIDE_HEIGHT_RATIO →
      resolve_character_image root character color "Right" "vs_screen" (some mw) (some mh)
        = .ok (lp, true, c)) := by
  have hside : ("Right" : String) ≠ "Left" := by decide
  have htr : (truthyInt (some mw) && truthyInt (some mh)) = true := by
    have h1 : mw ≠ 0 := by omega
    have h2 : mh ≠ 0 := by omega
    simp [truthyInt, h1, h2]
  have hskip := vsRightLoop_skip dir (some mw) (some mh) pre (c :: rest) hpre
  constructor <;> intro hcmp <;>
  · simp only [resolve_character_image, hdir, hcands, if_pos rfl, if_neg hside,
      hskip, vsRightLoop, hr, hl, htr, Option.getD_some, Bool.true_and, if_true,
      eq_self_iff_true, true_and, hroy, if_false]
    first
    | rw [if_neg (not_lt.mpr hcmp)]
    | rw [if_pos hcmp]

/-- Witness for C2 at a lookup whose requested color `"Blue"` matches no
file, so the first matching candidate is the `"Default"` fallback: with
cropped dims right 10x8 and left 10x10 in a 100x100 box the right fitted
height 12.8 is below 90% of the left's 16, so the mirrored left Default
asset is substituted. -/
theorem right_side_mirror_threshold_witness :
    resolve_character_image
      ⟨[("Fox", ⟨["Default Left", "Default Right"],
        fun s => if s = "Default Right" then (10, 8) else (10, 10)⟩)]⟩
      "Fox" "Blue" "Right" "vs_screen" (some 100) (some 100)
      = .ok ("Default Left", true, "Default") :=
  (right_side_mirror_threshold
      ⟨[("Fox", ⟨["Default Left", "Default Right"],
        fun s => if s = "Default Right" then (10, 8) else (10, 10)⟩)]⟩
      "Fox" "Blue" 100 100 "Fox"
      ⟨["Default Left", "Default Right"],
        fun s => if s = "Default Right" then (10, 8) else (10, 10)⟩
      ["Blue"] [] "Default" "Default Right" "Default Left"
      rfl (by decide) (by norm_num) (by norm_num) (by decide) (by decide)
      rfl rfl).2
    (by
      simp only [scaled_height_for_path, MAX_UPSCALE, RIGHT_SIDE_HEIGHT_RATIO]
      simp
      norm_num [min_def])

theorem vsLeftLoop_eq_none_iff (dir : VsDir) (l : List String) :
    vsLeftLoop dir l = none ↔ ∀ c ∈ l, find_image_file dir (c ++ " Left") = none := by
  induction l with
  | nil => simp [vsLeftLoop]
  | cons c rest ih =>
      cases h : find_image_file dir (c ++ " Left") with
      | none => simp [vsLeftLoop, h, ih]
      | some p => simp [vsLeftLoop, h]

theorem royLoop_eq_none_iff (dir : VsDir) (l : List String) :
    royLoop dir l = none ↔ ∀ c ∈ l, find_image_file dir (c ++ " Left") = none := by
  induction l with
  | nil => simp [royLoop]
  | cons c rest ih =>
      cases h : find_image_file dir (c ++ " Left") with
      | none => simp [royLoop, h, ih]
      | some p => simp [royLoop, h]

theorem plainLoop_eq_none_iff (dir : VsDir) (l : List String) :
    plainLoop dir l = none ↔ ∀ c ∈ l, find_image_file dir c = none := by
  induction l with
  | nil => simp [plainLoop]
  | cons c rest ih =>
      cases h : find_image_file dir c with
      | none => simp [plainLoop, h, ih]
      | some p => simp [plainLoop, h]

theorem vsRightLoop_eq_none_iff (dir : VsDir) (mw mh : Option ℤ) (l : List String) :
    vsRightLoop dir mw mh l = none ↔
      ∀ c ∈ l, find_image_file dir (c ++ " Right") = none
        ∧ find_image_file dir (c ++ " Left") = none := by
  induction l with
  | nil => simp [vsRightLoop]
  | cons c rest ih =>
      cases hr : find_image_file dir (c ++ " Right") with
      | none =>
          cases hl : find_image_file dir (c ++ " Left") with
          | none => simp [vsRightLoop, hr, hl, ih]
          | some p => simp [vsRightLoop, hr, hl]
      | some p =>
          cases hl : find_image_file dir (c ++ " Left") with
          | none => simp [vsRightLoop, hr, hl]
          | some q =>
              simp only [vsRightLoop, hr, hl]
              constructor
              · intro habs
                exfalso
                revert habs
                split
                · split <;> simp
                · simp
              · intro hall
                exact absurd (hall c (List.mem_cons_self c rest)).1 (by simp [hr])

/-- C9: asset resolution fails (raises, so the surrounding render aborts
with no output) exactly when no candidate matches under any fallback
rule — an unknown character directory, or every color candidate (requested
color, then `"Default"`) lacking a usable file for the requested side and
asset set — and each error message enumerates the available directory or
color names. -/
theorem resolve_image_error_characterization
    (root : CharRoot) (character color side character_set : String) (mw mh : Option ℤ) :
    (∀ e, resolve_character_dir root character = .error e →
        resolve_character_image root character color side character_set mw mh = .error e) ∧
    (root.dirs.lookup character = none →
      root.dirs.find? (fun p => normalize_token p.1 = normalize_token character) = none →
      resolve_character_dir root character =
        .error (s!"Unknown character '{character}'. Available: "
          ++ pyJoin ", " (sortStrings (root.dirs.map (fun p => p.1))))) ∧
    (∀ dn dir, resolve_character_dir root character = .ok (dn, dir) →
      (character_set = "vs_screen" →
        ((∃ e, resolve_character_image root character color side character_set mw mh
            = .error e) ↔
          ∀ c ∈ colorCandidates color,
            find_image_file dir (c ++ " Left") = none
              ∧ (side ≠ "Left" → find_image_file dir (c ++ " Right") = none)) ∧
        ((∀ c ∈ colorCandidates color,
            find_image_file dir (c ++ " Left") = none
              ∧ (side ≠ "Left" → find_image_file dir (c ++ " Right") = none)) →
          resolve_character_image root character color side character_set mw mh
            = .error (s!"Missing image for {character} ({color} {side}) in {dn}. "
                ++ "Available colors: " ++ pyJoin ", " (available_vs_colors dir)))) ∧
      (character_set ≠ "vs_screen" →
        ((∃ e, resolve_character_image root character color side character_set mw mh
            = .error e) ↔
          ∀ c ∈ colorCandidates color, find_image_file dir c = none) ∧
        ((∀ c ∈ colorCandidates color, find_image_file dir c = none) →
          resolve_character_image root character color side character_set mw mh
            = .error (s!"Missing image for {character} ({color}) in {dn}. "
                ++ "Available colors: " ++ pyJoin ", " (sortStrings dir.files))))) := by
  refine ⟨?_, ?_, ?_⟩
  · intro e he
    simp [resolve_character_image, he]
  · intro h1 h2
    simp [resolve_character_dir, h1, h2]
  · intro dn dir hdir
    constructor
    · intro hset
      subst hset
      by_cases hside : side = "Left"
      · subst hside
        have hroy : ¬ (("Left" : String) = "Right" ∧ normalize_token character = "roy") := by
          rintro ⟨h, -⟩
          exact absurd h (by decide)
        constructor
        · cases hloop : vsLeftLoop dir (colorCandidates color) with
          | none =>
              have hall := (vsLeftLoop_eq_none_iff dir (colorCandidates color)).mp hloop
              simp only [resolve_character_image, hdir, if_pos rfl, if_neg hroy,
                if_pos rfl, hloop]
              constructor
              · intro _
                exact fun c hc => ⟨hall c hc, fun hne => absurd rfl hne⟩
              · intro _
                exact ⟨_, rfl⟩
          | some r =>
              simp only [resolve_character_image, hdir, if_pos rfl, if_neg hroy,
                if_pos rfl, hloop]
              constructor
              · rintro ⟨e, he⟩
                cases he
              · intro hall
                obtain ⟨c, hc, hfind⟩ :
                    ∃ c ∈ colorCandidates color,
                      find_image_file dir (c ++ " Left") ≠ none := by
                  by_contra hno
                  push_neg at hno
                  have : vsLeftLoop dir (colorCandidates color) = none :=
                    (vsLeftLoop_eq_none_iff dir _).mpr hno
                  simp [this] at hloop
                exact absurd (hall c hc).1 hfind
        · intro hall
          have hnone : vsLeftLoop dir (colorCandidates color) = none :=
            (vsLeftLoop_eq_none_iff dir _).mpr (fun c hc => (hall c hc).1)
          simp [resolve_character_image, hdir, if_neg hroy, hnone]
      · -- side ≠ "Left": the right-side loop decides, the roy loop can
        -- only succeed when some left file exists
        have hrloop : ∀ r, (if side = "Right" ∧ normalize_token character = "roy"
            then royLoop dir (colorCandidates color) else none) = some r →
            ∃ c ∈ colorCandidates color, find_image_file dir (c ++ " Left") ≠ none := by
          intro r hr
          by_cases hcond : side = "Right" ∧ normalize_token character = "roy"
          · rw [if_pos hcond] at hr
            by_contra hno
            push_neg at hno
            have : royLoop dir (colorCandidates color) = none :=
              (royLoop_eq_none_iff dir _).mpr hno
            simp [this] at hr
          · rw [if_neg hcond] at hr
            cases hr
        constructor
        · cases hroyres : (if side = "Right" ∧ normalize_token character = "roy"
              then royLoop dir (colorCandidates color) else none) with
          | some r =>
              simp only [resolve_character_image, hdir, if_pos rfl, hroyres]
              constructor
              · rintro ⟨e, he⟩
                cases he
              · intro hall
                obtain ⟨c, hc, hfind⟩ := hrloop r hroyres
                exact absurd (hall c hc).1 hfind
          | none =>
              cases hloop : vsRightLoop dir mw mh (colorCandidates color) with
              | none =>
                  have hall := (vsRightLoop_eq_none_iff dir mw mh _).mp hloop
                  simp only [resolve_character_image, hdir, if_pos rfl, hroyres,
                    if_neg hside, hloop]
                  constructor
                  · intro _
                    exact fun c hc => ⟨(hall c hc).2, fun _ => (hall c hc).1⟩
                  · intro _
                    exact ⟨_, rfl⟩
              | some r =>
                  simp only [resolve_character_image, hdir, if_pos rfl, hroyres,
                    if_neg hside, hloop]
                  constructor
                  · rintro ⟨e, he⟩
                    cases he
                  · intro hall
                    have : vsRightLoop dir mw mh (colorCandidates color) = none :=
                      (vsRightLoop_eq_none_iff dir mw mh _).mpr
                        (fun c hc => ⟨(hall c hc).2 hside, (hall c hc).1⟩)
                    simp [this] at hloop
        · intro hall
          have hroynone : (if side = "Right" ∧ normalize_token character = "roy"
              then royLoop dir (colorCandidates color) else none) = none := by
            split
            · exact (royLoop_eq_none_iff dir _).mpr (fun c hc => (hall c hc).1)
            · rfl
          have hnone : vsRightLoop dir mw mh (colorCandidates color) = none :=
            (vsRightLoop_eq_none_iff dir mw mh _).mpr
              (fun c hc => ⟨(hall c hc).2 hside, (hall c hc).1⟩)
          simp [resolve_character_image, hdir, hroynone, if_neg hside, hnone]
    · intro hset
      constructor
      · cases hloop : plainLoop dir (colorCandidates color) with
        | none =>
            have hall := (plainLoop_eq_none_iff dir _).mp hloop
            simp only [resolve_character_image, hdir, if_neg hset, hloop]
            exact ⟨fun _ => hall, fun _ => ⟨_, rfl⟩⟩
        | some r =>
            simp only [resolve_character_image, hdir, if_neg hset, hloop]
            constructor
            · rintro ⟨e, he⟩
              cases he
            · intro hall
              have : plainLoop dir (colorCandidates color) = none :=
                (plainLoop_eq_none_iff dir _).mpr hall
              simp [this] at hloop
      · intro hall
        have hnone : plainLoop dir (colorCandidates color) = none :=
          (plainLoop_eq_none_iff dir _).mpr hall
        simp [resolve_character_image, hdir, if_neg hset, hnone]

/-- Witness for C9: an unknown character name yields exactly the
enumerating error, propagated through `resolve_character_image`. -/
theorem resolve_image_error_characterization_witness :
    resolve_character_image ⟨[("Fox", ⟨["Default Left"], fun _ => (10, 10)⟩)]⟩
      "Marth" "Blue" "Left" "vs_screen" none none
      = .error ("Unknown character 'Marth'. Available: " ++ pyJoin ", " (sortStrings ["Fox"])) :=
  (resolve_image_error_characterization
      ⟨[("Fox", ⟨["Default Left"], fun _ => (10, 10)⟩)]⟩
      "Marth" "Blue" "Left" "vs_screen" none none).1 _
    ((resolve_image_error_characterization
      ⟨[("Fox", ⟨["Default Left"], fun _ => (10, 10)⟩)]⟩
      "Marth" "Blue" "Left" "vs_screen" none none).2.1 rfl rfl)

theorem strW_append (cw : Char → ℕ) (a b : String) :
    strW cw (a ++ b) = strW cw a + strW cw b := by
  simp [strW, String.data_append]

theorem pyJoin_single (x : String) : pyJoin " " [x] = x := rfl

theorem pyJoin_cons₂ (x y : String) (l : List String) :
    pyJoin " " (x :: y :: l) = x ++ " " ++ pyJoin " " (y :: l) := rfl

theorem pyJoin_append (a b : List String) (ha : a ≠ []) (hb : b ≠ []) :
    pyJoin " " (a ++ b) = pyJoin " " a ++ " " ++ pyJoin " " b := by
  induction a with
  | nil => exact absurd rfl ha
  | cons x a ih =>
      cases a with
      | nil =>
          cases b with
          | nil => exact absurd rfl hb
          | cons y bl => rfl
      | cons z a2 =>
          have hih := ih (by simp)
          calc pyJoin " " ((x :: z :: a2) ++ b)
              = x ++ " " ++ pyJoin " " ((z :: a2) ++ b) := rfl
            _ = x ++ " " ++ (pyJoin " " (z :: a2) ++ " " ++ pyJoin " " b) := by rw [hih]
            _ = pyJoin " " (x :: z :: a2) ++ " " ++ pyJoin " " b := by
                rw [pyJoin_cons₂]
                simp [String.append_assoc]

theorem joinW_prefix_le (cw : Char → ℕ) (a b : List String) (ha : a ≠ []) :
    strW cw (pyJoin " " a) ≤ strW cw (pyJoin " " (a ++ b)) := by
  cases b with
  | nil => simp
  | cons y bl =>
      rw [pyJoin_append a (y :: bl) ha (by simp), strW_append, strW_append]
      omega

theorem joinW_suffix_le (cw : Char → ℕ) (a b : List String) (hb : b ≠ []) :
    strW cw (pyJoin " " b) ≤ strW cw (pyJoin " " (a ++ b)) := by
  cases a with
  | nil => simp
  | cons x al =>
      rw [pyJoin_append (x :: al) b (by simp) hb, strW_append, strW_append]
      omega

theorem Feas.nonneg {cw : Char → ℕ} {mw k : ℤ} {ws : List String}
    (h : Feas cw mw k ws) : 0 ≤ k := by
  induction h with
  | nil => exact le_refl 0
  | cons g rest k hg hw hr ih => omega

theorem Feas.one_le {cw : Char → ℕ} {mw k : ℤ} {ws : List String}
    (h : Feas cw mw k ws) (hne : ws ≠ []) : 1 ≤ k := by
  cases h with
  | nil => exact absurd rfl hne
  | cons g rest k hg hw hr => have := hr.nonneg; omega

theorem Feas.mono_width {cw : Char → ℕ} {w1 w2 k : ℤ} {ws : List String}
    (h : Feas cw w1 k ws) (hw : w1 ≤ w2) : Feas cw w2 k ws := by
  induction h with
  | nil => exact .nil
  | cons g rest k hg hwle hr ih => exact .cons g rest k hg (le_trans hwle hw) ih

theorem Feas.trim {cw : Char → ℕ} {mw : ℤ} :
    ∀ {k : ℤ} {ws : List String}, Feas cw mw k ws → ∀ a b, ws = a ++ b →
      ∃ k', k' ≤ k ∧ Feas cw mw k' b := by
  intro k ws h
  induction h with
  | nil =>
      intro a b hab
      have hb : b = [] := (List.append_eq_nil.mp hab.symm).2
      subst hb
      exact ⟨0, le_refl 0, .nil⟩
  | cons g1 rest1 k1 hg1 hw1 hr1 ih =>
      intro a b hab
      rcases List.append_eq_append_iff.mp hab.symm with ⟨e, he1, he2⟩ | ⟨e, he1, he2⟩
      · -- g1 = a ++ e, b = e ++ rest1
        cases e with
        | nil =>
            have hb : b = rest1 := by simpa using he2
            subst hb
            exact ⟨k1, by omega, hr1⟩
        | cons w e' =>
            refine ⟨k1 + 1, le_refl _, ?_⟩
            have hwe : (strW cw (pyJoin " " (w :: e')) : ℤ) ≤ mw := by
              have hle := joinW_suffix_le cw a (w :: e') (by simp)
              rw [← he1] at hle
              exact le_trans (by exact_mod_cast hle) hw1
            rw [he2]
            exact .cons (w :: e') rest1 k1 (by simp) hwe hr1
      · -- a = g1 ++ e, rest1 = e ++ b
        obtain ⟨k', hk', hf⟩ := ih e b he2
        exact ⟨k', by omega, hf⟩

theorem word_le_join (cw : Char → ℕ) {w : String} {g : List String} (hmem : w ∈ g) :
    strW cw w ≤ strW cw (pyJoin " " g) := by
  obtain ⟨s, t, rfl⟩ := List.append_of_mem hmem
  have h1 : strW cw (pyJoin " " [w]) ≤ strW cw (pyJoin " " ([w] ++ t)) :=
    joinW_prefix_le cw [w] t (by simp)
  have h2 : strW cw (pyJoin " " (w :: t)) ≤ strW cw (pyJoin " " (s ++ w :: t)) :=
    joinW_suffix_le cw s (w :: t) (by simp)
  rw [pyJoin_single] at h1
  exact le_trans h1 (by simpa using h2)

theorem Feas.all_fit {cw : Char → ℕ} {mw : ℤ} :
    ∀ {k : ℤ} {ws : List String}, Feas cw mw k ws →
      ∀ w ∈ ws, (strW cw w : ℤ) ≤ mw := by
  intro k ws h
  induction h with
  | nil => intro w hw; simp at hw
  | cons g rest k hg hwle hr ih =>
      intro w hw
      rcases List.mem_append.mp hw with hg' | hr'
      · exact le_trans (by exact_mod_cast word_le_join cw hg') hwle
      · exact ih w hr'

theorem feas_break {cw : Char → ℕ} {mw : ℤ} {g : List String} {word : String}
    {rest : List String} {k : ℤ} (hg : g ≠ [])
    (hcand : ¬ ((strW cw (pyJoin " " (g ++ [word])) : ℤ) ≤ mw))
    (hfeas : Feas cw mw k (g ++ word :: rest)) :
    ∃ k0 : ℤ, k0 + 1 ≤ k ∧ 1 ≤ k0 ∧ (strW cw word : ℤ) ≤ mw
      ∧ Feas cw mw k0 (word :: rest) := by
  generalize hws : g ++ word :: rest = ws at hfeas
  cases hfeas with
  | nil => exact absurd hws (by simp [hg])
  | cons g1 rest1 k1 hg1 hw1 hr1 =>
      rcases List.append_eq_append_iff.mp hws with ⟨e, he1, he2⟩ | ⟨e, he1, he2⟩
      · -- g1 = g ++ e, word :: rest = e ++ rest1
        cases e with
        | nil =>
            have hrest : rest1 = word :: rest := by simpa using he2.symm
            rw [hrest] at hr1
            refine ⟨k1, by omega, hr1.one_le (by simp), ?_, hr1⟩
            exact hr1.all_fit word (List.mem_cons_self word rest)
        | cons w' e' =>
            have hw' : w' = word ∧ e' ++ rest1 = rest := by
              have : word :: rest = w' :: (e' ++ rest1) := by simpa using he2
              exact ⟨(List.cons.injEq .. ▸ this.symm).1, (List.cons.injEq .. ▸ this.symm).2⟩
            exfalso
            apply hcand
        -- join (g ++ [word]) is a prefix-join of g1 = g ++ word :: e'
            have hpre : strW cw (pyJoin " " (g ++ [word]))
                ≤ strW cw (pyJoin " " ((g ++ [word]) ++ e')) :=
              joinW_prefix_le cw (g ++ [word]) e' (by simp)
            have hgl : (g ++ [word]) ++ e' = g1 := by
              rw [he1, hw'.1]
              simp
            rw [hgl] at hpre
            exact le_trans (by exact_mod_cast hpre) hw1
      · -- g = g1 ++ e, rest1 = e ++ word :: rest
        obtain ⟨k0, hk0, hf0⟩ := hr1.trim e (word :: rest) he2
        refine ⟨k0, by omega, hf0.one_le (by simp), ?_, hf0⟩
        exact hf0.all_fit word (List.mem_cons_self word rest)

theorem wrapLoop_feas (cw : Char → ℕ) (mw ml : ℤ) :
    ∀ (rest g lines out : List String),
      g ≠ [] → (strW cw (pyJoin " " g) : ℤ) ≤ mw →
      wrapLoop cw mw ml (pyJoin " " g) lines rest = some out →
      ∃ k : ℤ, 1 ≤ k ∧ Feas cw mw k (g ++ rest) ∧ (lines.length : ℤ) + k ≤ ml := by
  intro rest
  induction rest with
  | nil =>
      intro g lines out hg hfit hsome
      simp only [wrapLoop] at hsome
      split at hsome
      · exact absurd hsome (by simp)
      · rename_i hlen
        refine ⟨1, le_refl 1, ?_, ?_⟩
        · simpa using Feas.cons g [] 0 hg hfit Feas.nil
        · simp only [List.length_append, List.length_singleton] at hlen
          push_cast at hlen
          omega
  | cons word rest ih =>
      intro g lines out hg hfit hsome
      simp only [wrapLoop] at hsome
      by_cases hcand : (strW cw (pyJoin " " g ++ " " ++ word) : ℤ) ≤ mw
      · rw [if_pos hcand] at hsome
        have hjoin : pyJoin " " g ++ " " ++ word = pyJoin " " (g ++ [word]) := by
          rw [pyJoin_append g [word] hg (by simp), pyJoin_single]
        rw [hjoin] at hsome
        obtain ⟨k, hk1, hfeas, hbound⟩ := ih (g ++ [word]) lines out (by simp)
          (by rw [← hjoin]; exact hcand) hsome
        exact ⟨k, hk1, by simpa using hfeas, hbound⟩
      · rw [if_neg hcand] at hsome
        split at hsome
        · exact absurd hsome (by simp)
        · split at hsome
          · exact absurd hsome (by simp)
          · rename_i hwfit hlines
            have hword : (strW cw (pyJoin " " [word]) : ℤ) ≤ mw := by
              rw [pyJoin_single]
              omega
            obtain ⟨k, hk1, hfeas, hbound⟩ := ih [word] (lines ++ [pyJoin " " g]) out
              (by simp) hword (by simpa [pyJoin_single] using hsome)
            refine ⟨k + 1, by omega, ?_, ?_⟩
            · exact Feas.cons g (word :: rest) k hg hfit (by simpa using hfeas)
            · simp only [List.length_append, List.length_singleton] at hbound
              push_cast at hbound
              omega

theorem wrapLoop_some_of_feas (cw : Char → ℕ) (mw ml : ℤ) :
    ∀ (rest g lines : List String) (k : ℤ),
      g ≠ [] → (strW cw (pyJoin " " g) : ℤ) ≤ mw →
      Feas cw mw k (g ++ rest) → (lines.length : ℤ) + k ≤ ml →
      (wrapLoop cw mw ml (pyJoin " " g) lines rest).isSome := by
  intro rest
  induction rest with
  | nil =>
      intro g lines k hg hfit hfeas hbound
      have h1 : 1 ≤ k := hfeas.one_le (by simp [hg])
      have hlen : ¬ ((((lines ++ [pyJoin " " g]).length : ℕ) : ℤ) > ml) := by
        simp only [List.length_append, List.length_singleton]
        push_cast
        omega
      simp only [wrapLoop]
      rw [if_neg hlen]
      simp
  | cons word rest ih =>
      intro g lines k hg hfit hfeas hbound
      simp only [wrapLoop]
      have hjoin : pyJoin " " g ++ " " ++ word = pyJoin " " (g ++ [word]) := by
        rw [pyJoin_append g [word] hg (by simp), pyJoin_single]
      by_cases hcand : (strW cw (pyJoin " " g ++ " " ++ word) : ℤ) ≤ mw
      · rw [if_pos hcand, hjoin]
        exact ih (g ++ [word]) lines k (by simp) (by rw [← hjoin]; exact hcand)
          (by simpa using hfeas) hbound
      · rw [if_neg hcand]
        have hcand' : ¬ ((strW cw (pyJoin " " (g ++ [word])) : ℤ) ≤ mw) := by
          rw [← hjoin]
          exact hcand
        obtain ⟨k0, hk0, hk01, hwfit, hfeas0⟩ := feas_break hg hcand' hfeas
        rw [if_neg (by omega : ¬ ((strW cw word : ℤ) > mw))]
        have hlen : ¬ ((((lines ++ [pyJoin " " g]).length : ℕ) : ℤ) ≥ ml) := by
          simp only [List.length_append, List.length_singleton]
          push_cast
          omega
        rw [if_neg hlen]
        have hrec := ih [word] (lines ++ [pyJoin " " g]) k0 (by simp)
          (by rw [pyJoin_single]; exact hwfit) (by simpa using hfeas0)
          (by
            simp only [List.length_append, List.length_singleton]
            push_cast
            omega)
        simpa [pyJoin_single] using hrec

theorem wrap_text_some_mono (cw : Char → ℕ) (text : String) (ml w1 w2 : ℤ) (h : w1 ≤ w2)
    (hs : (wrap_text cw text w1 ml).isSome) : (wrap_text cw text w2 ml).isSome := by
  cases hsplit : pySplit text with
  | nil => simp [wrap_text, hsplit]
  | cons w ws =>
      simp only [wrap_text, hsplit] at hs ⊢
      by_cases hwfit : (strW cw w : ℤ) > w1
      · rw [if_pos hwfit] at hs
        simp at hs
      · rw [if_neg hwfit] at hs
        push_neg at hwfit
        obtain ⟨out, hout⟩ := Option.isSome_iff_exists.mp hs
        obtain ⟨k, hk1, hfeas, hbound⟩ := wrapLoop_feas cw w1 ml ws [w] [] out (by simp)
          (by rw [pyJoin_single]; exact hwfit) (by simpa [pyJoin_single] using hout)
        rw [if_neg (by omega : ¬ ((strW cw w : ℤ) > w2))]
        have hws := wrapLoop_some_of_feas cw w2 ml ws [w] [] k (by simp)
          (by rw [pyJoin_single]; omega) (hfeas.mono_width h) (by simpa using hbound)
        simpa [pyJoin_single] using hws

theorem fitSizes_pairwise (a b : ℤ) : (fitSizes a b).Pairwise (fun x y => y ≤ x) := by
  rw [fitSizes]
  split
  · simp
  · refine List.Pairwise.map _ (fun i j hij => ?_) (List.pairwise_lt_range _)
    omega

theorem fitSizes_mem_bounds {a b s : ℤ} (h : s ∈ fitSizes a b) : b ≤ s ∧ s ≤ a := by
  rw [fitSizes] at h
  split at h
  · cases h
  · obtain ⟨i, hi, rfl⟩ := List.mem_map.mp h
    rename_i hab
    have hi' := List.mem_range.mp hi
    have hnn : (0 : ℤ) ≤ a - b := by omega
    have htn : ((a - b).toNat : ℤ) = a - b := Int.toNat_of_nonneg hnn
    constructor <;> omega

theorem find?_ge_of_imp :
    ∀ {l : List ℤ}, l.Pairwise (fun x y => y ≤ x) →
      ∀ {p q : ℤ → Bool}, (∀ x ∈ l, p x = true → q x = true) →
      ∀ {a : ℤ}, l.find? p = some a →
      ∃ b, l.find? q = some b ∧ a ≤ b := by
  intro l
  induction l with
  | nil => intro _ p q _ a ha; cases ha
  | cons x t ih =>
      intro hpw p q himp a ha
      by_cases hp : p x = true
      · have hq := himp x (List.mem_cons_self x t) hp
        rw [List.find?_cons_of_pos _ hp] at ha
        refine ⟨x, List.find?_cons_of_pos _ hq, ?_⟩
        cases ha
        exact le_refl x
      · rw [List.find?_cons_of_neg _ (by simpa using hp)] at ha
        by_cases hq : q x = true
        · refine ⟨x, List.find?_cons_of_pos _ hq, ?_⟩
          have hmem := List.mem_of_find?_eq_some ha
          exact (List.pairwise_cons.mp hpw).1 a hmem
        · rw [List.find?_cons_of_neg _ (by simpa using hq)]
          exact ih (List.pairwise_cons.mp hpw).2
            (fun y hy => himp y (List.mem_cons_of_mem _ hy)) ha

/-- C4: for a fixed text, per-size character-width table, size range and
line limit, the font size `fit_text` chooses is monotone in `max_width`:
a narrower width never yields a larger size. -/
theorem fit_text_size_monotone (cw : ℤ → Char → ℕ) (text : String)
    (max_size min_size max_lines w1 w2 : ℤ) (h : w1 ≤ w2) :
    (fit_text cw text max_size min_size w1 max_lines).1
      ≤ (fit_text cw text max_size min_size w2 max_lines).1 := by
  rw [fit_text, fit_text]
  cases h1 : (fitSizes max_size min_size).find?
      (fun s => (wrap_text (cw s) text w1 max_lines).isSome) with
  | none =>
      cases h2 : (fitSizes max_size min_size).find?
          (fun s => (wrap_text (cw s) text w2 max_lines).isSome) with
      | none =>
          cases hm : wrap_text (cw min_size) text w1 max_lines <;>
            cases hm2 : wrap_text (cw min_size) text w2 max_lines <;> simp
      | some s2 =>
          have hs2 := fitSizes_mem_bounds (List.mem_of_find?_eq_some h2)
          cases hm : wrap_text (cw min_size) text w1 max_lines <;>
            simp [hs2.1]
  | some s1 =>
      obtain ⟨s2, h2, hle⟩ := find?_ge_of_imp (fitSizes_pairwise max_size min_size)
        (fun x _ hpx => by
          simpa using wrap_text_some_mono (cw x) text max_lines w1 w2 h (by simpa using hpx))
        h1
      rw [h2]
      simpa using hle

/-- Witness for C4 at character width 1 per char: at width 5 the two-word
text cannot wrap on one line at any size, at width 11 it can. -/
theorem fit_text_size_monotone_witness :
    (fit_text (fun _ _ => 1) "hello world" 12 6 5 1).1
      ≤ (fit_text (fun _ _ => 1) "hello world" 12 6 11 1).1 :=
  fit_text_size_monotone (fun _ _ => 1) "hello world" 12 6 1 5 11 (by norm_num)

theorem pyDropLast_data (s : String) : (pyDropLast s).data = s.data.dropLast := rfl

theorem pyRstrip_pre (s : String) : (pyRstrip s).data <+: s.data := by
  have h1 : s.data.reverse.dropWhile Char.isWhitespace <:+ s.data.reverse :=
    List.dropWhile_suffix _
  have h2 := List.reverse_prefix.mpr h1
  simpa [pyRstrip] using h2

theorem pyDropLast_pre (s : String) : (pyDropLast s).data <+: s.data := by
  rw [pyDropLast_data, List.dropLast_eq_take]
  exact List.take_prefix _ _

theorem truncLoop_spec (cw : Char → ℕ) (mw : ℤ) :
    ∀ (fuel : ℕ) (t : String), t.data.length ≤ fuel →
      (truncLoop cw mw fuel t).data <+: t.data ∧
      (truncLoop cw mw fuel t ≠ "" →
        (strW cw (truncLoop cw mw fuel t ++ "...") : ℤ) ≤ mw) := by
  intro fuel
  induction fuel with
  | zero =>
      intro t hlen
      have ht : t = "" := by
        have hdata : t.data = [] := List.length_eq_zero.mp (Nat.le_zero.mp hlen)
        apply String.ext
        rw [hdata]
      subst ht
      exact ⟨List.prefix_refl _, fun hne => absurd rfl hne⟩
  | succ fuel ih =>
      intro t hlen
      rw [truncLoop]
      by_cases ht : t = ""
      · rw [if_pos ht]
        exact ⟨List.prefix_refl _, fun hne => absurd ht hne⟩
      · rw [if_neg ht]
        by_cases hfit : (strW cw (t ++ "...") : ℤ) ≤ mw
        · rw [if_pos hfit]
          exact ⟨List.prefix_refl _, fun _ => hfit⟩
        · rw [if_neg hfit]
          have hlen' : (pyRstrip (pyDropLast t)).data.length ≤ fuel := by
            have h1 := (pyRstrip_pre (pyDropLast t)).length_le
            have h2 : (pyDropLast t).data.length = t.data.length - 1 := by
              rw [pyDropLast_data, List.length_dropLast]
            have h3 : t.data ≠ [] := by
              intro hnil
              apply ht
              apply String.ext
              rw [hnil]
            have h4 : 1 ≤ t.data.length := List.length_pos.mpr h3
            omega
          obtain ⟨hpre, hfit'⟩ := ih (pyRstrip (pyDropLast t)) hlen'
          exact ⟨hpre.trans ((pyRstrip_pre (pyDropLast t)).trans (pyDropLast_pre t)),
            hfit'⟩

/-- C8 (amended): when no candidate size in the step-2 descending sequence
wraps and the text does not wrap at `min_size` either, `fit_text` returns
`min_size` with the single truncated line; that line is either a nonempty
prefix of the text with `"..."` appended whose rendered width fits
`max_width`, or the text itself (when the text already fits, or when the
trim loop consumed everything because not even one character plus the
ellipsis fits). -/
theorem fit_text_truncate_fallback (cw : ℤ → Char → ℕ) (text : String)
    (max_size min_size max_width max_lines : ℤ)
    (hall : ∀ s ∈ fitSizes max_size min_size,
        wrap_text (cw s) text max_width max_lines = none)
    (hmin : wrap_text (cw min_size) text max_width max_lines = none) :
    fit_text cw text max_size min_size max_width max_lines
      = (min_size, [truncate_text (cw min_size) text max_width]) ∧
    (truncate_text (cw min_size) text max_width = text ∨
      ∃ p q : String, p ≠ "" ∧ p ++ q = text ∧
        truncate_text (cw min_size) text max_width = p ++ "..." ∧
        (strW (cw min_size) (p ++ "...") : ℤ) ≤ max_width) := by
  constructor
  · rw [fit_text]
    have hfind : (fitSizes max_size min_size).find?
        (fun s => (wrap_text (cw s) text max_width max_lines).isSome) = none := by
      rw [List.find?_eq_none]
      intro s hs
      simp [hall s hs]
    rw [hfind, hmin]
  · rw [truncate_text]
    by_cases hfits : (strW (cw min_size) text : ℤ) ≤ max_width
    · rw [if_pos hfits]
      exact .inl rfl
    · rw [if_neg hfits]
      obtain ⟨hpre, hfit⟩ :=
        truncLoop_spec (cw min_size) max_width text.length text (le_refl _)
      by_cases hne : truncLoop (cw min_size) max_width text.length text = ""
      · rw [if_neg (by simpa using hne)]
        exact .inl rfl
      · rw [if_pos hne]
        obtain ⟨q, hq⟩ := hpre
        refine .inr ⟨truncLoop (cw min_size) max_width text.length text, String.mk q,
          hne, String.ext ?_, rfl, hfit hne⟩
        rw [String.data_append]
        simpa using hq

/-- Witness for C8's amended statement at a text that cannot be wrapped or
even truncated into width 0. -/
theorem fit_text_truncate_fallback_witness :
    fit_text (fun _ _ => 1) "hi" 10 10 0 1
      = (10, [truncate_text ((fun _ : ℤ => (fun _ : Char => (1 : ℕ))) 10) "hi" 0]) :=
  (fit_text_truncate_fallback (fun _ _ => 1) "hi" 10 10 0 1 (by decide) (by decide)).1

/-- C8 (counterexample to the claim as stated): with unit character widths
and `max_width = 0`, the only size in the step-2 range (10 down to 10)
fails to wrap `"hi"`, and the fallback line is the raw text `"hi"` — it
neither ends in an ellipsis nor fits within `max_width`. -/
theorem fit_text_truncate_fallback_cex :
    fitSizes 10 10 = [10] ∧
    wrap_text ((fun _ : ℤ => (fun _ : Char => (1 : ℕ))) 10) "hi" 0 1 = none ∧
    fit_text (fun _ _ => 1) "hi" 10 10 0 1 = (10, ["hi"]) ∧
    strEndsWith "hi" "..." = false ∧
    ¬ ((strW (fun _ : Char => (1 : ℕ)) "hi" : ℤ) ≤ 0) := by decide

end Thumb
